import Mathlib

/-!
Verification development for a 3D block-stacking arcade game
(single source file: script.js).

The game logic is embedded shallowly: JavaScript numbers are modelled as
rationals, the mutable global gameState object becomes an immutable
GameState record threaded through the operations, and the Three.js scene
is restricted to the data the game logic reads back (block positions and
sizes; the list of spawned falling debris pieces).  Peripheral rendering,
camera, audio and DOM code is omitted: it never feeds back into the game
state fields modelled here.
-/

namespace StackGame

/-- A block, as held in gameState.stack or gameState.currentBlock:
mesh position (x, y), logical width and depth, and the moving flag. -/
structure Block where
  posX : ℚ
  posY : ℚ
  width : ℚ
  depth : ℚ
  moving : Bool
  deriving Repr, DecidableEq

/-- A falling debris piece spawned by createFallingPiece: its mesh
center and box dimensions (the piece is overhang wide). -/
structure Piece where
  posX : ℚ
  posY : ℚ
  width : ℚ
  depth : ℚ
  deriving Repr, DecidableEq

/-- The game state: the fields of the global gameState object that the
game logic reads or writes (scene, camera, renderer, sounds, animation
bookkeeping are peripheral), plus the list of debris pieces added to the
scene by createFallingPiece. -/
structure GameState where
  stack : List Block
  currentBlock : Option Block
  direction : ℚ
  gameEnded : Bool
  isPlacingBlock : Bool
  score : ℕ
  speed : ℚ
  fallingPieces : List Piece
  deriving Repr, DecidableEq

/-- CONFIG.BOX_SIZE. -/
def BOX_SIZE : ℚ := 3

/-- CONFIG.BOX_HEIGHT. -/
def BOX_HEIGHT : ℚ := 1 / 2

/-- CONFIG.INITIAL_SPEED. -/
def INITIAL_SPEED : ℚ := 8 / 100

/-- CONFIG.SPEED_INCREASE. -/
def SPEED_INCREASE : ℚ := 2 / 1000

/-- CONFIG.BOUNDS. -/
def BOUNDS : ℚ := 5

/-- The reference frame duration 16.67 ms used in animate. -/
def FRAME_REF : ℚ := 1667 / 100

/-- addBlock(x, y, width, depth, moving): builds the block record and
either makes it the current (moving) block or pushes it on the stack. -/
def addBlock (x y width depth : ℚ) (moving : Bool) (s : GameState) : GameState :=
  let block : Block := { posX := x, posY := y, width := width, depth := depth, moving := moving }
  if moving then { s with currentBlock := some block }
  else { s with stack := s.stack ++ [block] }

/-- addNewMovingBlock(): reads the last stack entry, spawns a moving
block of the same width and depth at x = -BOUNDS and
y = stack.length * BOX_HEIGHT, and clears isPlacingBlock.  Returns none
when the stack is empty, where the JavaScript would throw a TypeError
reading lastBlock.width. -/
def addNewMovingBlock (s : GameState) : Option GameState :=
  match s.stack.getLast? with
  | none => none
  | some lastBlock =>
    let nextY : ℚ := (s.stack.length : ℚ) * BOX_HEIGHT
    let s1 := addBlock (-BOUNDS) nextY lastBlock.width lastBlock.depth true s
    some { s1 with isPlacingBlock := false }

/-- updateScore(): increments the score (the DOM text update is
peripheral). -/
def updateScore (s : GameState) : GameState :=
  { s with score := s.score + 1 }

/-- increaseDifficulty(): adds SPEED_INCREASE to the speed. -/
def increaseDifficulty (s : GameState) : GameState :=
  { s with speed := s.speed + SPEED_INCREASE }

/-- endGame(): sets gameEnded (DOM updates and cancelAnimationFrame are
peripheral). -/
def endGame (s : GameState) : GameState :=
  { s with gameEnded := true }

/-- createFallingPiece(blockDir, newWidth, overhang): builds a debris
piece of width overhang centered at
currentBlock.x + blockDir * (newWidth / 2 + overhang / 2) and adds it to
the scene.  In placeBlock this runs after the current block has already
been recentred and narrowed. -/
def createFallingPiece (blockDir newWidth overhang : ℚ) (s : GameState) : GameState :=
  match s.currentBlock with
  | none => s
  | some cur =>
    let drop : Piece :=
      { posX := cur.posX + blockDir * (newWidth / 2 + overhang / 2)
        posY := cur.posY
        width := overhang
        depth := cur.depth }
    { s with fallingPieces := drop :: s.fallingPieces }

/-- placeBlock(): guarded on a current block existing, the game not
having ended, and no placement being in flight.  Computes the overhang
against the top of the stack; on overhang >= width plays the fail sound
and ends the game; otherwise trims the block, recentres it by half the
delta, spawns the debris piece, pushes the block, bumps score and speed.
When the stack is empty the JavaScript throws after having set
isPlacingBlock and cleared the moving flag, so that branch returns the
state with exactly those two writes applied. -/
def placeBlock (s : GameState) : GameState :=
  match s.currentBlock with
  | none => s
  | some cur =>
    if s.gameEnded || s.isPlacingBlock then s
    else
      let s1 := { s with isPlacingBlock := true, currentBlock := some { cur with moving := false } }
      match s.stack.getLast? with
      | none => s1
      | some prev =>
        let delta := cur.posX - prev.posX
        let overhang := |delta|
        if cur.width ≤ overhang then
          endGame s1
        else
          let newWidth := cur.width - overhang
          let blockDir : ℚ := if 0 < delta then 1 else -1
          let placed : Block :=
            { cur with moving := false, posX := cur.posX - delta / 2, width := newWidth }
          let s2 := { s1 with currentBlock := some placed }
          let s3 := createFallingPiece blockDir newWidth overhang s2
          let s4 := { s3 with stack := s3.stack ++ [placed] }
          increaseDifficulty (updateScore s4)

/-- moveCurrentBlock(deltaTime): advances the current moving block by
speed * direction * deltaTime; when the new position leaves
[-BOUNDS, BOUNDS] the direction is flipped and the position clamped. -/
def moveCurrentBlock (deltaTime : ℚ) (s : GameState) : GameState :=
  match s.currentBlock with
  | none => s
  | some cur =>
    if !cur.moving || s.gameEnded then s
    else
      let newX := cur.posX + s.speed * s.direction * deltaTime
      if BOUNDS < |newX| then
        { s with direction := -s.direction
                 currentBlock := some { cur with posX := max (-BOUNDS) (min BOUNDS newX) } }
      else
        { s with currentBlock := some { cur with posX := newX } }

/-- updateGame(deltaTime): no-op once the game has ended, otherwise the
motion step (updateCamera only moves the camera, which is peripheral). -/
def updateGame (deltaTime : ℚ) (s : GameState) : GameState :=
  if s.gameEnded then s else moveCurrentBlock deltaTime s

/-- The deferred spawn scheduled by placeBlock: after the delay,
addNewMovingBlock runs only if the game has not ended.  The getD arm is
unreachable from reachable states (the stack is never empty there). -/
def spawnStep (s : GameState) : GameState :=
  if s.gameEnded then s else (addNewMovingBlock s).getD s

/-- The deltaTime computation in animate(currentTime): elapsed
milliseconds capped at 100, divided by 16.67. -/
def animateDelta (currentTime lastTime : ℚ) : ℚ :=
  min (currentTime - lastTime) 100 / FRAME_REF

/-- The gameState object literal before init() adds any blocks. -/
def emptyState : GameState :=
  { stack := []
    currentBlock := none
    direction := 1
    gameEnded := false
    isPlacingBlock := false
    score := 0
    speed := INITIAL_SPEED
    fallingPieces := [] }

/-- The state after init(): addBlock(0, 0, BOX_SIZE, BOX_SIZE) followed
by addNewMovingBlock() (which succeeds, so getD never falls back). -/
def initState : GameState :=
  (addNewMovingBlock (addBlock 0 0 BOX_SIZE BOX_SIZE false emptyState)).getD emptyState

/-- The operations the host can fire on the game state: an animation
tick, a place input, the deferred spawn timer, and an external
termination. -/
inductive Op where
  | tick (dt : ℚ)
  | place
  | spawn
  | terminate

/-- One operation applied to the state. -/
def stepOp (o : Op) (s : GameState) : GameState :=
  match o with
  | Op.tick dt => updateGame dt s
  | Op.place => placeBlock s
  | Op.spawn => spawnStep s
  | Op.terminate => endGame s

/-- A sequence of operations applied left to right. -/
def runTrace (ops : List Op) (s : GameState) : GameState :=
  match ops with
  | [] => s
  | o :: rest => runTrace rest (stepOp o s)

/-- Whether a place input fired in state s takes the success path of
placeBlock: the guard passes, the stack is nonempty, and the overhang is
strictly below the moving width. -/
def placeSucceeds (s : GameState) : Bool :=
  match s.currentBlock, s.stack.getLast? with
  | some cur, some prev =>
    !s.gameEnded && !s.isPlacingBlock && decide (|cur.posX - prev.posX| < cur.width)
  | _, _ => false

/-- Number of successful placements contributed by one operation. -/
def succCount1 (o : Op) (s : GameState) : ℕ :=
  match o with
  | Op.place => if placeSucceeds s then 1 else 0
  | _ => 0

/-- Number of successful placements along a trace from s. -/
def countSucc (ops : List Op) (s : GameState) : ℕ :=
  match ops with
  | [] => 0
  | o :: rest => succCount1 o s + countSucc rest (stepOp o s)

/-- States reachable from the post-init state by host operations. -/
inductive Reachable : GameState → Prop where
  | init : Reachable initState
  | step (o : Op) (s : GameState) : Reachable s → Reachable (stepOp o s)

/-- The trimmed block a successful placement pushes. -/
def placedOf (cur prev : Block) : Block :=
  { cur with moving := false
             posX := cur.posX - (cur.posX - prev.posX) / 2
             width := cur.width - |cur.posX - prev.posX| }

/-- The debris piece a successful placement spawns. -/
def pieceOf (cur prev : Block) : Piece :=
  { posX := (cur.posX - (cur.posX - prev.posX) / 2) +
      (if 0 < cur.posX - prev.posX then (1 : ℚ) else -1) *
        ((cur.width - |cur.posX - prev.posX|) / 2 + |cur.posX - prev.posX| / 2)
    posY := cur.posY
    width := |cur.posX - prev.posX|
    depth := cur.depth }

/-- The moving block addNewMovingBlock spawns from the top of the stack. -/
def spawnedOf (s : GameState) (lastBlock : Block) : Block :=
  { posX := -BOUNDS
    posY := (s.stack.length : ℚ) * BOX_HEIGHT
    width := lastBlock.width
    depth := lastBlock.depth
    moving := true }

/-- Width invariant: widths along the stack never increase from the base
upward, every stacked width is positive, and the current block (when
present) has positive width no larger than the top of the stack. -/
def Inv (s : GameState) : Prop :=
  List.Chain' (fun a b => b.width ≤ a.width) s.stack ∧
  (∀ b ∈ s.stack, 0 < b.width) ∧
  (∀ cur, s.currentBlock = some cur →
    0 < cur.width ∧
      ∀ lastBlock, s.stack.getLast? = some lastBlock → cur.width ≤ lastBlock.width)

/-- The base block pushed by init(). -/
def baseB : Block := { posX := 0, posY := 0, width := 3, depth := 3, moving := false }

/-- A moving block at x = 2 (spec scenario 2). -/
def curAt2 : Block := { posX := 2, posY := 1 / 2, width := 3, depth := 3, moving := true }

/-- A moving block at x = 3 (spec scenario 3). -/
def curAt3 : Block := { posX := 3, posY := 1 / 2, width := 3, depth := 3, moving := true }

/-- A moving block at x = 4.9 (spec scenario 5). -/
def curNear : Block :=
  { posX := 49 / 10, posY := 1 / 2, width := 3, depth := 3, moving := true }

/-- A running state with the base block on the stack and the given
current block, used to instantiate the theorems concretely. -/
def mkTestState (cur : Block) : GameState :=
  { stack := [baseB]
    currentBlock := some cur
    direction := 1
    gameEnded := false
    isPlacingBlock := false
    score := 0
    speed := 8 / 100
    fallingPieces := [] }

/-- An ended state used to instantiate the termination theorems. -/
def sEndedW : GameState := { mkTestState curAt2 with gameEnded := true }

/-- A trace of five ticks landing the moving block exactly over the
stack, each followed by a place input and the deferred spawn. -/
def demoOps : List Op :=
  [Op.tick (125 / 2), Op.place, Op.spawn,
   Op.tick (2500 / 41), Op.place, Op.spawn,
   Op.tick (2500 / 42), Op.place, Op.spawn,
   Op.tick (2500 / 43), Op.place, Op.spawn,
   Op.tick (2500 / 44), Op.place]

lemma placeBlock_success_eq (s : GameState) (cur prev : Block)
    (hc : s.currentBlock = some cur) (he : s.gameEnded = false)
    (hp : s.isPlacingBlock = false) (hl : s.stack.getLast? = some prev)
    (hov : |cur.posX - prev.posX| < cur.width) :
    placeBlock s =
      { s with isPlacingBlock := true
               currentBlock := some (placedOf cur prev)
               stack := s.stack ++ [placedOf cur prev]
               fallingPieces := pieceOf cur prev :: s.fallingPieces
               score := s.score + 1
               speed := s.speed + SPEED_INCREASE } := by
  rcases s with ⟨stack, cb, dir, ge, ip, sc, sp, fp⟩
  simp only at hc he hp hl
  subst hc; subst he; subst hp
  simp only [placeBlock, Bool.or_self, hl]
  rw [if_neg (not_le.mpr hov)]
  simp [createFallingPiece, updateScore, increaseDifficulty, placedOf, pieceOf]

lemma placeBlock_failure_eq (s : GameState) (cur prev : Block)
    (hc : s.currentBlock = some cur) (he : s.gameEnded = false)
    (hp : s.isPlacingBlock = false) (hl : s.stack.getLast? = some prev)
    (hov : cur.width ≤ |cur.posX - prev.posX|) :
    placeBlock s =
      { s with isPlacingBlock := true
               currentBlock := some { cur with moving := false }
               gameEnded := true } := by
  rcases s with ⟨stack, cb, dir, ge, ip, sc, sp, fp⟩
  simp only at hc he hp hl
  subst hc; subst he; subst hp
  simp only [placeBlock, Bool.or_self, hl]
  rw [if_pos hov]
  simp [endGame]

lemma placeBlock_eq_of_none (s : GameState) (hc : s.currentBlock = none) :
    placeBlock s = s := by
  simp [placeBlock, hc]

lemma placeBlock_eq_of_ended (s : GameState) (he : s.gameEnded = true) :
    placeBlock s = s := by
  cases hc : s.currentBlock with
  | none => simp [placeBlock, hc]
  | some cur => simp [placeBlock, hc, he]

lemma placeBlock_eq_of_placing (s : GameState) (hp : s.isPlacingBlock = true) :
    placeBlock s = s := by
  cases hc : s.currentBlock with
  | none => simp [placeBlock, hc]
  | some cur => simp [placeBlock, hc, hp]

lemma placeBlock_emptyStack_eq (s : GameState) (cur : Block)
    (hc : s.currentBlock = some cur) (he : s.gameEnded = false)
    (hp : s.isPlacingBlock = false) (hl : s.stack.getLast? = none) :
    placeBlock s =
      { s with isPlacingBlock := true
               currentBlock := some { cur with moving := false } } := by
  rcases s with ⟨stack, cb, dir, ge, ip, sc, sp, fp⟩
  simp only at hc he hp hl
  subst hc; subst he; subst hp
  simp [placeBlock, hl]

lemma moveCurrentBlock_eq_of_none (dt : ℚ) (s : GameState)
    (hc : s.currentBlock = none) : moveCurrentBlock dt s = s := by
  simp [moveCurrentBlock, hc]

lemma moveCurrentBlock_eq_of_notMoving (dt : ℚ) (s : GameState) (cur : Block)
    (hc : s.currentBlock = some cur) (hm : cur.moving = false) :
    moveCurrentBlock dt s = s := by
  simp [moveCurrentBlock, hc, hm]

lemma moveCurrentBlock_eq_of_ended (dt : ℚ) (s : GameState)
    (he : s.gameEnded = true) : moveCurrentBlock dt s = s := by
  cases hc : s.currentBlock with
  | none => simp [moveCurrentBlock, hc]
  | some cur => simp [moveCurrentBlock, hc, he]

lemma moveCurrentBlock_flip_eq (dt : ℚ) (s : GameState) (cur : Block)
    (hc : s.currentBlock = some cur) (hm : cur.moving = true)
    (he : s.gameEnded = false)
    (hb : BOUNDS < |cur.posX + s.speed * s.direction * dt|) :
    moveCurrentBlock dt s =
      { s with direction := -s.direction
               currentBlock := some { cur with
                 posX := max (-BOUNDS)
                   (min BOUNDS (cur.posX + s.speed * s.direction * dt)) } } := by
  rcases s with ⟨stack, cb, dir, ge, ip, sc, sp, fp⟩
  simp only at hc he
  subst hc; subst he
  simp only [moveCurrentBlock, hm, Bool.not_true, Bool.false_or, if_false]
  rw [if_pos hb]
  simp

lemma moveCurrentBlock_noflip_eq (dt : ℚ) (s : GameState) (cur : Block)
    (hc : s.currentBlock = some cur) (hm : cur.moving = true)
    (he : s.gameEnded = false)
    (hb : |cur.posX + s.speed * s.direction * dt| ≤ BOUNDS) :
    moveCurrentBlock dt s =
      { s with currentBlock := some { cur with
                 posX := cur.posX + s.speed * s.direction * dt } } := by
  rcases s with ⟨stack, cb, dir, ge, ip, sc, sp, fp⟩
  simp only at hc he
  subst hc; subst he
  simp only [moveCurrentBlock, hm, Bool.not_true, Bool.false_or, if_false]
  rw [if_neg (not_lt.mpr hb)]
  simp

lemma moveCurrentBlock_cases (dt : ℚ) (s : GameState) :
    moveCurrentBlock dt s = s ∨
      ∃ cur x d, s.currentBlock = some cur ∧
        moveCurrentBlock dt s =
          { s with direction := d, currentBlock := some { cur with posX := x } } := by
  cases hc : s.currentBlock with
  | none => exact Or.inl (moveCurrentBlock_eq_of_none dt s hc)
  | some cur =>
    cases hm : cur.moving with
    | false => exact Or.inl (moveCurrentBlock_eq_of_notMoving dt s cur hc hm)
    | true =>
      cases he : s.gameEnded with
      | true => exact Or.inl (moveCurrentBlock_eq_of_ended dt s he)
      | false =>
        rcases lt_or_le BOUNDS |cur.posX + s.speed * s.direction * dt| with hb | hb
        · refine Or.inr ⟨cur,
            max (-BOUNDS) (min BOUNDS (cur.posX + s.speed * s.direction * dt)),
            -s.direction, rfl, ?_⟩
          rw [moveCurrentBlock_flip_eq dt s cur hc hm he hb]
          simp [he]
        · refine Or.inr ⟨cur, cur.posX + s.speed * s.direction * dt,
            s.direction, rfl, ?_⟩
          rw [moveCurrentBlock_noflip_eq dt s cur hc hm he hb]
          simp [he]

lemma addNewMovingBlock_some_eq (s : GameState) (lastBlock : Block)
    (hl : s.stack.getLast? = some lastBlock) :
    addNewMovingBlock s =
      some { s with currentBlock := some (spawnedOf s lastBlock)
                    isPlacingBlock := false } := by
  simp [addNewMovingBlock, hl, addBlock, spawnedOf]

lemma spawnStep_eq_of_ended (s : GameState) (he : s.gameEnded = true) :
    spawnStep s = s := by
  simp [spawnStep, he]

lemma spawnStep_cases (s : GameState) :
    spawnStep s = s ∨
      ∃ lastBlock, s.stack.getLast? = some lastBlock ∧
        spawnStep s =
          { s with currentBlock := some (spawnedOf s lastBlock)
                   isPlacingBlock := false } := by
  cases he : s.gameEnded with
  | true => exact Or.inl (spawnStep_eq_of_ended s he)
  | false =>
    cases hl : s.stack.getLast? with
    | none => exact Or.inl (by simp [spawnStep, he, addNewMovingBlock, hl])
    | some lastBlock =>
      refine Or.inr ⟨lastBlock, rfl, ?_⟩
      simp [spawnStep, he, addNewMovingBlock_some_eq s lastBlock hl]

lemma updateGame_score_speed (dt : ℚ) (s : GameState) :
    (updateGame dt s).score = s.score ∧ (updateGame dt s).speed = s.speed := by
  unfold updateGame
  split
  · exact ⟨rfl, rfl⟩
  · rcases moveCurrentBlock_cases dt s with h | ⟨cur, x, d, hc, h⟩ <;> rw [h] <;>
      exact ⟨rfl, rfl⟩

lemma spawnStep_score_speed (s : GameState) :
    (spawnStep s).score = s.score ∧ (spawnStep s).speed = s.speed := by
  rcases spawnStep_cases s with h | ⟨lastBlock, hl, h⟩ <;> rw [h] <;>
    exact ⟨rfl, rfl⟩

lemma placeBlock_score_speed (s : GameState) :
    (placeBlock s).score = s.score + succCount1 Op.place s ∧
    (placeBlock s).speed = s.speed + (succCount1 Op.place s : ℚ) * SPEED_INCREASE := by
  cases hc : s.currentBlock with
  | none =>
    rw [placeBlock_eq_of_none s hc]
    simp [succCount1, placeSucceeds, hc]
  | some cur =>
    cases hl : s.stack.getLast? with
    | none =>
      have hps : placeSucceeds s = false := by simp [placeSucceeds, hc, hl]
      cases he : s.gameEnded with
      | true => rw [placeBlock_eq_of_ended s he]; simp [succCount1, hps]
      | false =>
        cases hp : s.isPlacingBlock with
        | true => rw [placeBlock_eq_of_placing s hp]; simp [succCount1, hps]
        | false =>
          rw [placeBlock_emptyStack_eq s cur hc he hp hl]
          simp [succCount1, hps]
    | some prev =>
      cases he : s.gameEnded with
      | true =>
        have hps : placeSucceeds s = false := by simp [placeSucceeds, hc, hl, he]
        rw [placeBlock_eq_of_ended s he]; simp [succCount1, hps]
      | false =>
        cases hp : s.isPlacingBlock with
        | true =>
          have hps : placeSucceeds s = false := by simp [placeSucceeds, hc, hl, hp]
          rw [placeBlock_eq_of_placing s hp]; simp [succCount1, hps]
        | false =>
          rcases lt_or_le (|cur.posX - prev.posX|) cur.width with hov | hov
          · have hps : placeSucceeds s = true := by
              simp [placeSucceeds, hc, hl, he, hp, hov]
            rw [placeBlock_success_eq s cur prev hc he hp hl hov]
            simp [succCount1, hps]
          · have hps : placeSucceeds s = false := by
              simp [placeSucceeds, hc, hl, not_lt.mpr hov]
            rw [placeBlock_failure_eq s cur prev hc he hp hl hov]
            simp [succCount1, hps]

lemma stepOp_score_speed (o : Op) (s : GameState) :
    (stepOp o s).score = s.score + succCount1 o s ∧
    (stepOp o s).speed = s.speed + (succCount1 o s : ℚ) * SPEED_INCREASE := by
  cases o with
  | tick dt =>
    have h := updateGame_score_speed dt s
    simp [stepOp, succCount1, h.1, h.2]
  | place => exact placeBlock_score_speed s
  | spawn =>
    have h := spawnStep_score_speed s
    simp [stepOp, succCount1, h.1, h.2]
  | terminate => simp [stepOp, endGame, succCount1]

lemma runTrace_score_speed (ops : List Op) : ∀ s : GameState,
    (runTrace ops s).score = s.score + countSucc ops s ∧
    (runTrace ops s).speed = s.speed + (countSucc ops s : ℚ) * SPEED_INCREASE := by
  induction ops with
  | nil => intro s; simp [runTrace, countSucc]
  | cons o rest ih =>
    intro s
    have h1 := stepOp_score_speed o s
    have h2 := ih (stepOp o s)
    constructor
    · simp only [runTrace, countSucc]
      rw [h2.1, h1.1]
      omega
    · simp only [runTrace, countSucc]
      rw [h2.2, h1.2]
      push_cast
      ring

lemma mem_of_getLast?_eq : ∀ {l : List Block} {a : Block},
    l.getLast? = some a → a ∈ l := by
  intro l
  induction l with
  | nil => intro a h; simp at h
  | cons x xs ih =>
    intro a h
    cases xs with
    | nil => simp at h; simp [h]
    | cons y ys =>
      rw [List.getLast?_cons_cons] at h
      exact List.mem_cons_of_mem x (ih h)

lemma inv_shield (s : GameState) (stack' : List Block) (cb : Option Block)
    (hst : stack' = s.stack)
    (hw : ∀ cur cur0, cb = some cur → s.currentBlock = some cur0 →
      cur.width = cur0.width)
    (hsome : ∀ cur, cb = some cur → ∃ cur0, s.currentBlock = some cur0)
    (h : Inv s) :
    Inv { s with stack := stack', currentBlock := cb } := by
  obtain ⟨h1, h2, h3⟩ := h
  subst hst
  refine ⟨h1, h2, ?_⟩
  intro cur hc
  obtain ⟨cur0, hc0⟩ := hsome cur hc
  have hww := hw cur cur0 hc hc0
  obtain ⟨hpos, hle⟩ := h3 cur0 hc0
  exact ⟨hww ▸ hpos, fun lastBlock hl => hww ▸ hle lastBlock hl⟩

lemma inv_placeBlock (s : GameState) (h : Inv s) : Inv (placeBlock s) := by
  cases hc : s.currentBlock with
  | none => rw [placeBlock_eq_of_none s hc]; exact h
  | some cur =>
    cases hl : s.stack.getLast? with
    | none =>
      cases he : s.gameEnded with
      | true => rw [placeBlock_eq_of_ended s he]; exact h
      | false =>
        cases hp : s.isPlacingBlock with
        | true => rw [placeBlock_eq_of_placing s hp]; exact h
        | false =>
          rw [placeBlock_emptyStack_eq s cur hc he hp hl]
          exact inv_shield s s.stack (some { cur with moving := false }) rfl
            (by intro c c0 hcc hcc0
                cases hcc; rw [hc] at hcc0; cases hcc0; rfl)
            (fun c hcc => ⟨cur, hc⟩) h
    | some prev =>
      cases he : s.gameEnded with
      | true => rw [placeBlock_eq_of_ended s he]; exact h
      | false =>
        cases hp : s.isPlacingBlock with
        | true => rw [placeBlock_eq_of_placing s hp]; exact h
        | false =>
          rcases lt_or_le (|cur.posX - prev.posX|) cur.width with hov | hov
          · rw [placeBlock_success_eq s cur prev hc he hp hl hov]
            obtain ⟨h1, h2, h3⟩ := h
            obtain ⟨hcpos, hcle⟩ := h3 cur hc
            have habs : (0 : ℚ) ≤ |cur.posX - prev.posX| := abs_nonneg _
            have hplw : (placedOf cur prev).width = cur.width - |cur.posX - prev.posX| := rfl
            have hplpos : 0 < (placedOf cur prev).width := by
              rw [hplw]; linarith
            have hplle : (placedOf cur prev).width ≤ prev.width := by
              rw [hplw]
              have := hcle prev hl
              linarith
            refine ⟨?_, ?_, ?_⟩
            · refine List.chain'_append.2 ⟨h1, List.chain'_singleton _, ?_⟩
              intro x hx y hy
              simp only [List.head?] at hy
              rw [hl] at hx
              simp only [Option.mem_def, Option.some.injEq] at hx hy
              subst hx; subst hy
              exact hplle
            · intro b hb
              rcases List.mem_append.1 hb with hb | hb
              · exact h2 b hb
              · simp only [List.mem_singleton] at hb
                subst hb; exact hplpos
            · intro c hcc
              simp only [Option.some.injEq] at hcc
              subst hcc
              refine ⟨hplpos, ?_⟩
              intro lastBlock hlast
              rw [List.getLast?_concat] at hlast
              simp only [Option.some.injEq] at hlast
              subst hlast
              exact le_refl _
          · rw [placeBlock_failure_eq s cur prev hc he hp hl hov]
            exact inv_shield s s.stack (some { cur with moving := false }) rfl
              (by intro c c0 hcc hcc0
                  cases hcc; rw [hc] at hcc0; cases hcc0; rfl)
              (fun c hcc => ⟨cur, hc⟩) h

lemma inv_stepOp (o : Op) (s : GameState) (h : Inv s) : Inv (stepOp o s) := by
  cases o with
  | tick dt =>
    show Inv (updateGame dt s)
    unfold updateGame
    split
    · exact h
    · rcases moveCurrentBlock_cases dt s with hm | ⟨cur, x, d, hc, hm⟩
      · rw [hm]; exact h
      · rw [hm]
        exact inv_shield s s.stack (some { cur with posX := x }) rfl
          (by intro c c0 hcc hcc0
              cases hcc; rw [hc] at hcc0; cases hcc0; rfl)
          (fun c hcc => ⟨cur, hc⟩) h
  | place => exact inv_placeBlock s h
  | spawn =>
    show Inv (spawnStep s)
    rcases spawnStep_cases s with hs | ⟨lastBlock, hl, hs⟩
    · rw [hs]; exact h
    · rw [hs]
      obtain ⟨h1, h2, h3⟩ := h
      refine ⟨h1, h2, ?_⟩
      intro c hcc
      simp only [Option.some.injEq] at hcc
      subst hcc
      have hmem : lastBlock ∈ s.stack := mem_of_getLast?_eq hl
      refine ⟨h2 lastBlock hmem, ?_⟩
      intro lb hlb
      rw [hl] at hlb
      simp only [Option.some.injEq] at hlb
      subst hlb
      exact le_refl _
  | terminate =>
    obtain ⟨h1, h2, h3⟩ := h
    exact ⟨h1, h2, h3⟩

lemma initState_eq :
    initState =
      { stack := [{ posX := 0, posY := 0, width := 3, depth := 3, moving := false }]
        currentBlock := some
          { posX := -5, posY := 1 / 2, width := 3, depth := 3, moving := true }
        direction := 1
        gameEnded := false
        isPlacingBlock := false
        score := 0
        speed := 8 / 100
        fallingPieces := [] } := by
  simp [initState, addNewMovingBlock, addBlock, emptyState,
    BOX_SIZE, BOX_HEIGHT, BOUNDS, INITIAL_SPEED]

lemma inv_init : Inv initState := by
  rw [initState_eq]
  refine ⟨List.chain'_singleton _, ?_, ?_⟩
  · intro b hb
    simp only [List.mem_singleton] at hb
    subst hb; norm_num
  · intro cur hc
    simp only [Option.some.injEq] at hc
    subst hc
    refine ⟨by norm_num, ?_⟩
    intro lastBlock hl
    simp only [List.getLast?_singleton, Option.some.injEq] at hl
    subst hl
    norm_num

lemma inv_reachable (s : GameState) (h : Reachable s) : Inv s := by
  induction h with
  | init => exact inv_init
  | step o t ht ih => exact inv_stepOp o t ih

lemma stepOp_ended_preserved (o : Op) (s : GameState) (h : s.gameEnded = true) :
    (stepOp o s).gameEnded = true := by
  cases o with
  | tick dt => simp [stepOp, updateGame, h]
  | place => rw [stepOp, placeBlock_eq_of_ended s h]; exact h
  | spawn => rw [stepOp, spawnStep_eq_of_ended s h]; exact h
  | terminate => simp [stepOp, endGame]

lemma runTrace_ended_preserved (ops : List Op) : ∀ s : GameState,
    s.gameEnded = true → (runTrace ops s).gameEnded = true := by
  induction ops with
  | nil => intro s h; exact h
  | cons o rest ih =>
    intro s h
    exact ih (stepOp o s) (stepOp_ended_preserved o s h)

/-- Claim C1: for every placement with overhang strictly below the moving
width, placeBlock succeeds (the game does not end), appends the kept block
with newWidth = movingWidth - overhang > 0 and new center
movingPos - (movingPos - basePos) / 2, and spawns a debris piece of width
overhang centered at keptNewPos + direction * (newWidth / 2 + overhang / 2),
where direction is +1 when movingPos - basePos > 0 and -1 otherwise
(so ties default to -1). -/
theorem trim_success_spec (s : GameState) (cur prev : Block)
    (hc : s.currentBlock = some cur) (he : s.gameEnded = false)
    (hp : s.isPlacingBlock = false) (hl : s.stack.getLast? = some prev)
    (hov : |cur.posX - prev.posX| < cur.width) :
    (placeBlock s).gameEnded = false ∧
    (placeBlock s).stack = s.stack ++ [placedOf cur prev] ∧
    (placeBlock s).fallingPieces = pieceOf cur prev :: s.fallingPieces ∧
    (placedOf cur prev).width = cur.width - |cur.posX - prev.posX| ∧
    0 < (placedOf cur prev).width ∧
    (placedOf cur prev).posX = cur.posX - (cur.posX - prev.posX) / 2 ∧
    (pieceOf cur prev).posX =
      (placedOf cur prev).posX +
        (if 0 < cur.posX - prev.posX then (1 : ℚ) else -1) *
          ((placedOf cur prev).width / 2 + |cur.posX - prev.posX| / 2) ∧
    (pieceOf cur prev).width = |cur.posX - prev.posX| := by
  rw [placeBlock_success_eq s cur prev hc he hp hl hov]
  refine ⟨he, rfl, rfl, rfl, ?_, rfl, rfl, rfl⟩
  simp only [placedOf]
  linarith [abs_nonneg (cur.posX - prev.posX)]

/-- Witness for C1 at spec scenario 2: base at 0 of width 3, moving block
at 2, so overhang 2, new width 1, kept center 1, debris center 2.5. -/
theorem trim_success_spec_witness :
    (placeBlock (mkTestState curAt2)).gameEnded = false ∧
    (placeBlock (mkTestState curAt2)).stack =
      (mkTestState curAt2).stack ++ [placedOf curAt2 baseB] ∧
    (placeBlock (mkTestState curAt2)).fallingPieces =
      pieceOf curAt2 baseB :: (mkTestState curAt2).fallingPieces ∧
    (placedOf curAt2 baseB).width = curAt2.width - |curAt2.posX - baseB.posX| ∧
    0 < (placedOf curAt2 baseB).width ∧
    (placedOf curAt2 baseB).posX = curAt2.posX - (curAt2.posX - baseB.posX) / 2 ∧
    (pieceOf curAt2 baseB).posX =
      (placedOf curAt2 baseB).posX +
        (if 0 < curAt2.posX - baseB.posX then (1 : ℚ) else -1) *
          ((placedOf curAt2 baseB).width / 2 + |curAt2.posX - baseB.posX| / 2) ∧
    (pieceOf curAt2 baseB).width = |curAt2.posX - baseB.posX| :=
  trim_success_spec (mkTestState curAt2) curAt2 baseB rfl rfl rfl rfl
    (by norm_num [curAt2, baseB])

/-- Claim C2: under the placement guard, the session ends exactly when
overhang is at least the moving width (ties fail), and on failure the
stack, the score and the speed are left unchanged. -/
theorem placement_failure_spec (s : GameState) (cur prev : Block)
    (hc : s.currentBlock = some cur) (he : s.gameEnded = false)
    (hp : s.isPlacingBlock = false) (hl : s.stack.getLast? = some prev) :
    ((placeBlock s).gameEnded = true ↔ cur.width ≤ |cur.posX - prev.posX|) ∧
    (cur.width ≤ |cur.posX - prev.posX| →
      (placeBlock s).stack = s.stack ∧ (placeBlock s).score = s.score ∧
      (placeBlock s).speed = s.speed) := by
  rcases lt_or_le (|cur.posX - prev.posX|) cur.width with hov | hov
  · rw [placeBlock_success_eq s cur prev hc he hp hl hov]
    constructor
    · constructor
      · intro h
        rw [he] at h
        simp at h
      · intro h
        exact absurd h (not_le.mpr hov)
    · intro h
      exact absurd h (not_le.mpr hov)
  · rw [placeBlock_failure_eq s cur prev hc he hp hl hov]
    exact ⟨⟨fun _ => hov, fun _ => rfl⟩, fun _ => ⟨rfl, rfl, rfl⟩⟩

/-- Witness for C2 at spec scenario 3: moving block at 3 against a base
of width 3 at 0, an exact tie, which fails and ends the session while
stack, score and speed are untouched. -/
theorem placement_failure_spec_witness :
    (placeBlock (mkTestState curAt3)).gameEnded = true ∧
    (placeBlock (mkTestState curAt3)).stack = (mkTestState curAt3).stack ∧
    (placeBlock (mkTestState curAt3)).score = (mkTestState curAt3).score ∧
    (placeBlock (mkTestState curAt3)).speed = (mkTestState curAt3).speed := by
  have h := placement_failure_spec (mkTestState curAt3) curAt3 baseB rfl rfl rfl rfl
  have hov : curAt3.width ≤ |curAt3.posX - baseB.posX| := by norm_num [curAt3, baseB]
  exact ⟨h.1.mpr hov, (h.2 hov).1, (h.2 hov).2.1, (h.2 hov).2.2⟩

/-- Claim C3: a motion step on a moving block computes
newPosition = position + speed * direction * dt, flips the direction
exactly when the new position leaves [-BOUNDS, BOUNDS] and then clamps the
position into that interval; otherwise direction and the unclamped
position are returned unchanged. -/
theorem advance_spec (dt : ℚ) (s : GameState) (cur : Block)
    (hc : s.currentBlock = some cur) (hm : cur.moving = true)
    (he : s.gameEnded = false) :
    (BOUNDS < |cur.posX + s.speed * s.direction * dt| →
      (moveCurrentBlock dt s).direction = -s.direction ∧
      (moveCurrentBlock dt s).currentBlock =
        some { cur with posX := max (-BOUNDS) (min BOUNDS (cur.posX + s.speed * s.direction * dt)) } ∧
      -BOUNDS ≤ max (-BOUNDS) (min BOUNDS (cur.posX + s.speed * s.direction * dt)) ∧
      max (-BOUNDS) (min BOUNDS (cur.posX + s.speed * s.direction * dt)) ≤ BOUNDS) ∧
    (|cur.posX + s.speed * s.direction * dt| ≤ BOUNDS →
      (moveCurrentBlock dt s).direction = s.direction ∧
      (moveCurrentBlock dt s).currentBlock =
        some { cur with posX := cur.posX + s.speed * s.direction * dt }) := by
  constructor
  · intro hb
    rw [moveCurrentBlock_flip_eq dt s cur hc hm he hb]
    refine ⟨rfl, rfl, le_max_left _ _, ?_⟩
    refine max_le ?_ (min_le_left _ _)
    norm_num [BOUNDS]
  · intro hb
    rw [moveCurrentBlock_noflip_eq dt s cur hc hm he hb]
    exact ⟨rfl, rfl⟩

/-- Witness for C3 at spec scenario 5: position 4.9, speed 0.08,
direction +1, dt 2 yields 5.06, which exceeds BOUNDS = 5, so the
direction flips and the position is clamped. -/
theorem advance_spec_witness :
    (moveCurrentBlock 2 (mkTestState curNear)).direction =
      -(mkTestState curNear).direction ∧
    (moveCurrentBlock 2 (mkTestState curNear)).currentBlock =
      some { curNear with posX := max (-BOUNDS) (min BOUNDS (curNear.posX + (mkTestState curNear).speed * (mkTestState curNear).direction * 2)) } := by
  have h := advance_spec 2 (mkTestState curNear) curNear rfl rfl rfl
  have hb : BOUNDS <
      |curNear.posX + (mkTestState curNear).speed * (mkTestState curNear).direction * 2| := by
    have hx : curNear.posX + (mkTestState curNear).speed * (mkTestState curNear).direction * 2
        = 253 / 50 := by norm_num [curNear, mkTestState]
    rw [hx, abs_of_pos (by norm_num : (0 : ℚ) < 253 / 50)]
    norm_num [BOUNDS]
  exact ⟨(h.1 hb).1, (h.1 hb).2.1⟩

/-- Claim C4: while a placement is in flight (isPlacingBlock), a further
place input is a strict no-op: the entire state is returned unchanged,
so nothing is buffered or replayed. -/
theorem place_debounce_noop (s : GameState) (hp : s.isPlacingBlock = true) :
    placeBlock s = s :=
  placeBlock_eq_of_placing s hp

/-- Witness for C4: a place input in a concrete awaiting-placement state
leaves the state identical. -/
theorem place_debounce_noop_witness :
    placeBlock { mkTestState curAt2 with isPlacingBlock := true } =
      { mkTestState curAt2 with isPlacingBlock := true } :=
  place_debounce_noop { mkTestState curAt2 with isPlacingBlock := true } rfl

/-- Claim C5: gameEnded is terminal along every operation sequence, and a
tick applies no motion when the game has ended, when no current block
exists or when the current block is not moving: direction and current
block are unchanged. -/
theorem ended_terminal_and_frozen :
    (∀ (ops : List Op) (s : GameState), s.gameEnded = true →
      (runTrace ops s).gameEnded = true) ∧
    (∀ (dt : ℚ) (s : GameState),
      (s.gameEnded = true ∨ s.currentBlock = none ∨
        ∃ cur, s.currentBlock = some cur ∧ cur.moving = false) →
      (updateGame dt s).direction = s.direction ∧
      (updateGame dt s).currentBlock = s.currentBlock) := by
  constructor
  · exact fun ops s h => runTrace_ended_preserved ops s h
  · intro dt s h
    unfold updateGame
    by_cases hg : s.gameEnded = true
    · rw [if_pos hg]; exact ⟨rfl, rfl⟩
    · rw [if_neg hg]
      rcases h with h | h | ⟨cur, hcb, hmv⟩
      · exact absurd h hg
      · rw [moveCurrentBlock_eq_of_none dt s h]; exact ⟨rfl, rfl⟩
      · rw [moveCurrentBlock_eq_of_notMoving dt s cur hcb hmv]; exact ⟨rfl, rfl⟩

/-- Witness for C5 at a concrete ended state: an arbitrary operation
sequence keeps gameEnded, and a tick leaves direction and current block
untouched. -/
theorem ended_terminal_and_frozen_witness :
    (runTrace [Op.tick 1, Op.place, Op.spawn, Op.terminate] sEndedW).gameEnded = true ∧
    (updateGame 1 sEndedW).direction = sEndedW.direction ∧
    (updateGame 1 sEndedW).currentBlock = sEndedW.currentBlock := by
  refine ⟨ended_terminal_and_frozen.1 [Op.tick 1, Op.place, Op.spawn, Op.terminate]
    sEndedW rfl, ?_, ?_⟩
  · exact (ended_terminal_and_frozen.2 1 sEndedW (Or.inl rfl)).1
  · exact (ended_terminal_and_frozen.2 1 sEndedW (Or.inl rfl)).2

/-- Claim C6: each successful placement increments the score by exactly 1
and the speed by exactly SPEED_INCREASE; no operation decreases the
speed; along any trace from the initial state the score equals the number
of successful placements n and the speed equals
INITIAL_SPEED + n * SPEED_INCREASE; numerically 0.08 + 5 * 0.002 = 0.09,
realised by a concrete five-placement trace. -/
theorem score_speed_progression :
    (∀ (s : GameState) (cur prev : Block),
      s.currentBlock = some cur → s.gameEnded = false → s.isPlacingBlock = false →
      s.stack.getLast? = some prev → |cur.posX - prev.posX| < cur.width →
      (placeBlock s).score = s.score + 1 ∧
      (placeBlock s).speed = s.speed + SPEED_INCREASE) ∧
    (∀ (o : Op) (s : GameState), s.speed ≤ (stepOp o s).speed) ∧
    (∀ ops : List Op,
      (runTrace ops initState).score = countSucc ops initState ∧
      (runTrace ops initState).speed =
        INITIAL_SPEED + (countSucc ops initState : ℚ) * SPEED_INCREASE) ∧
    INITIAL_SPEED + (5 : ℚ) * SPEED_INCREASE = 9 / 100 ∧
    (runTrace demoOps initState).score = 5 ∧
    (runTrace demoOps initState).speed = 9 / 100 := by
  refine ⟨?_, ?_, ?_, by norm_num [INITIAL_SPEED, SPEED_INCREASE], ?_⟩
  · intro s cur prev hc he hp hl hov
    rw [placeBlock_success_eq s cur prev hc he hp hl hov]
    exact ⟨rfl, rfl⟩
  · intro o s
    rw [(stepOp_score_speed o s).2]
    have h0 : (0 : ℚ) ≤ (succCount1 o s : ℚ) * SPEED_INCREASE := by
      apply mul_nonneg (Nat.cast_nonneg _)
      norm_num [SPEED_INCREASE]
    linarith
  · intro ops
    have h := runTrace_score_speed ops initState
    have hs : initState.score = 0 := by rw [initState_eq]
    have hv : initState.speed = INITIAL_SPEED := by rw [initState_eq]; rfl
    constructor
    · rw [h.1, hs]
      exact Nat.zero_add _
    · rw [h.2, hv]
  · constructor <;>
      norm_num [demoOps, runTrace, stepOp, updateGame, moveCurrentBlock, placeBlock,
        spawnStep, addNewMovingBlock, addBlock, endGame, createFallingPiece,
        updateScore, increaseDifficulty, initState, emptyState, BOUNDS, BOX_SIZE,
        BOX_HEIGHT, INITIAL_SPEED, SPEED_INCREASE]

/-- Witness for C6: a concrete successful placement bumps score by 1 and
speed by SPEED_INCREASE, and the empty trace has score equal to its
number of successful placements. -/
theorem score_speed_progression_witness :
    (placeBlock (mkTestState curAt2)).score = (mkTestState curAt2).score + 1 ∧
    (placeBlock (mkTestState curAt2)).speed =
      (mkTestState curAt2).speed + SPEED_INCREASE ∧
    (runTrace [] initState).score = countSucc [] initState := by
  have h := score_speed_progression.1 (mkTestState curAt2) curAt2 baseB
    rfl rfl rfl rfl (by norm_num [curAt2, baseB])
  exact ⟨h.1, h.2, (score_speed_progression.2.2.1 []).1⟩

/-- Counterexample for C7: addNewMovingBlock called in a state that
already has an ActiveBlock does not fail — it succeeds and silently
replaces the current block. -/
theorem spawn_no_failure_counterexample :
    (mkTestState curAt2).currentBlock.isSome = true ∧
    addNewMovingBlock (mkTestState curAt2) ≠ none := by
  constructor
  · rfl
  · rw [addNewMovingBlock_some_eq (mkTestState curAt2) baseB rfl]
    simp

/-- Claim C7 as amended: addNewMovingBlock spawns a moving block with the
width and depth of the top of the stack at x = -BOUNDS and
y = stack.length * BOX_HEIGHT and clears isPlacingBlock; it does not fail
when an ActiveBlock already exists (it replaces it), and it fails exactly
when the stack is empty. -/
theorem spawn_spec_amended :
    (∀ (s : GameState) (lastBlock : Block), s.stack.getLast? = some lastBlock →
      addNewMovingBlock s =
        some { s with currentBlock := some (spawnedOf s lastBlock)
                      isPlacingBlock := false } ∧
      (spawnedOf s lastBlock).width = lastBlock.width ∧
      (spawnedOf s lastBlock).depth = lastBlock.depth ∧
      (spawnedOf s lastBlock).posX = -BOUNDS ∧
      (spawnedOf s lastBlock).posY = (s.stack.length : ℚ) * BOX_HEIGHT ∧
      (spawnedOf s lastBlock).moving = true) ∧
    (∀ s : GameState, s.stack.getLast? = none → addNewMovingBlock s = none) := by
  constructor
  · intro s lastBlock hl
    exact ⟨addNewMovingBlock_some_eq s lastBlock hl, rfl, rfl, rfl, rfl, rfl⟩
  · intro s hl
    simp [addNewMovingBlock, hl]

/-- Witness for the amended C7: spawning in a concrete state that already
has an ActiveBlock succeeds and replaces it. -/
theorem spawn_spec_amended_witness :
    addNewMovingBlock (mkTestState curAt2) =
      some { mkTestState curAt2 with
               currentBlock := some (spawnedOf (mkTestState curAt2) baseB)
               isPlacingBlock := false } :=
  (spawn_spec_amended.1 (mkTestState curAt2) baseB rfl).1

/-- Claim C8: the normalized time step equals the elapsed milliseconds
capped at 100 divided by the 16.67 ms reference frame, and is therefore
bounded above by 100 / 16.67 however long the host stalled. -/
theorem animate_dt_spec (currentTime lastTime : ℚ) :
    (currentTime - lastTime ≤ 100 →
      animateDelta currentTime lastTime = (currentTime - lastTime) / FRAME_REF) ∧
    (100 ≤ currentTime - lastTime →
      animateDelta currentTime lastTime = 100 / FRAME_REF) ∧
    animateDelta currentTime lastTime ≤ 100 / FRAME_REF := by
  refine ⟨?_, ?_, ?_⟩
  · intro h
    unfold animateDelta
    rw [min_eq_left h]
  · intro h
    unfold animateDelta
    rw [min_eq_right h]
  · unfold animateDelta
    have hf : (0 : ℚ) < FRAME_REF := by norm_num [FRAME_REF]
    exact (div_le_div_iff_of_pos_right hf).mpr (min_le_right _ _)

/-- Witness for C8 at a 250 ms stall: the step is capped at
100 / 16.67. -/
theorem animate_dt_spec_witness :
    (100 : ℚ) ≤ 250 - 0 ∧ animateDelta 250 0 = 100 / FRAME_REF :=
  ⟨by norm_num, (animate_dt_spec 250 0).2.1 (by norm_num)⟩

/-- Claim C9: on a successful placement the kept block and the debris
piece partition the original moving block: their widths sum to the moving
width, and their intervals are adjacent with union equal to the original
interval (the debris sits flush on the positive side when the delta is
positive, on the negative side otherwise). -/
theorem trim_partition (s : GameState) (cur prev : Block)
    (hc : s.currentBlock = some cur) (he : s.gameEnded = false)
    (hp : s.isPlacingBlock = false) (hl : s.stack.getLast? = some prev)
    (hov : |cur.posX - prev.posX| < cur.width) :
    (placeBlock s).stack = s.stack ++ [placedOf cur prev] ∧
    (placeBlock s).fallingPieces = pieceOf cur prev :: s.fallingPieces ∧
    (placedOf cur prev).width + (pieceOf cur prev).width = cur.width ∧
    (((placedOf cur prev).posX - (placedOf cur prev).width / 2 =
        cur.posX - cur.width / 2 ∧
      (placedOf cur prev).posX + (placedOf cur prev).width / 2 =
        (pieceOf cur prev).posX - (pieceOf cur prev).width / 2 ∧
      (pieceOf cur prev).posX + (pieceOf cur prev).width / 2 =
        cur.posX + cur.width / 2) ∨
     ((pieceOf cur prev).posX - (pieceOf cur prev).width / 2 =
        cur.posX - cur.width / 2 ∧
      (pieceOf cur prev).posX + (pieceOf cur prev).width / 2 =
        (placedOf cur prev).posX - (placedOf cur prev).width / 2 ∧
      (placedOf cur prev).posX + (placedOf cur prev).width / 2 =
        cur.posX + cur.width / 2)) := by
  refine ⟨?_, ?_, ?_, ?_⟩
  · rw [placeBlock_success_eq s cur prev hc he hp hl hov]
  · rw [placeBlock_success_eq s cur prev hc he hp hl hov]
  · simp only [placedOf, pieceOf]
    ring
  · rcases lt_or_le 0 (cur.posX - prev.posX) with hd | hd
    · left
      simp only [placedOf, pieceOf, if_pos hd, abs_of_pos hd]
      exact ⟨by ring, by ring, by ring⟩
    · right
      simp only [placedOf, pieceOf, if_neg (not_lt.mpr hd), abs_of_nonpos hd]
      exact ⟨by ring, by ring, by ring⟩

/-- Witness for C9 at spec scenario 2: kept block [0.5, 1.5] and debris
[1.5, 3.5] partition the original [0.5, 3.5]. -/
theorem trim_partition_witness :
    (placeBlock (mkTestState curAt2)).stack =
      (mkTestState curAt2).stack ++ [placedOf curAt2 baseB] ∧
    (placedOf curAt2 baseB).width + (pieceOf curAt2 baseB).width = curAt2.width := by
  have h := trim_partition (mkTestState curAt2) curAt2 baseB rfl rfl rfl rfl
    (by norm_num [curAt2, baseB])
  exact ⟨h.1, h.2.2.1⟩

/-- Claim C10: in every reachable state the widths of the placed blocks
are non-increasing from the base upward and strictly positive. -/
theorem stack_widths_monotone (s : GameState) (h : Reachable s) :
    List.Chain' (fun a b => b.width ≤ a.width) s.stack ∧
    ∀ b ∈ s.stack, 0 < b.width :=
  ⟨(inv_reachable s h).1, (inv_reachable s h).2.1⟩

/-- Witness for C10 at the initial state, which is reachable by
construction. -/
theorem stack_widths_monotone_witness :
    List.Chain' (fun a b => b.width ≤ a.width) initState.stack :=
  (stack_widths_monotone initState Reachable.init).1

end StackGame
